import Mathlib

/-!
Verification of the apidoc-to-OpenAPI transformation core (src/index.js).

The development shallowly embeds the core transform: route-template
normalization (toPatternedFieldname), recursive schema inference
(getSchema), parameter/body/response classification and paths assembly
(getPaths).  JavaScript objects are modelled as association lists with
last-write-wins assignment (aset); JavaScript string operations
(indexOf, replace-first-occurrence, split, join, slice, toLowerCase,
toUpperCase on ASCII) are modelled on the character list underlying a
Lean String.  The recursion in getSchema terminates because every
recursive call strictly decreases the measure schemaPhi; getSchema is
defined with fuel schemaPhi + 1, and the theorem getSchema_eq recovers
the clean one-step unfolding of the source function.
-/

namespace ApidocOpenapi

/-! ## JavaScript string primitives -/

/-- Boolean test that the first list is a prefix of the second. -/
def listPrefixOf : List Char → List Char → Bool
  | [], _ => true
  | _ :: _, [] => false
  | a :: as, b :: bs => a == b && listPrefixOf as bs

/-- JS String.prototype.startsWith, on Lean strings. -/
def strPrefixOf (p s : String) : Bool :=
  listPrefixOf p.data s.data

/-- Index of the first occurrence of pat in a character list, as in JS indexOf
(none models the JS result -1). -/
def listFindSub (pat : List Char) : List Char → Option Nat
  | [] => if pat.isEmpty then some 0 else none
  | c :: cs =>
    if listPrefixOf pat (c :: cs) then some 0
    else (listFindSub pat cs).map (fun i => i + 1)

/-- JS s.indexOf(pat), with none for -1. -/
def strIndexOf (s pat : String) : Option Nat :=
  listFindSub pat.data s.data

/-- JS s.indexOf(pat) !== -1. -/
def strContainsSub (s pat : String) : Bool :=
  (strIndexOf s pat).isSome

/-- JS s.indexOf(c) !== -1 for a single character. -/
def strContainsChar (s : String) (c : Char) : Bool :=
  s.data.contains c

/-- JS s.replace(pat, '') with a plain-string pattern: removes only the
first occurrence of pat (or returns s unchanged when there is none). -/
def removeFirst (s pat : String) : String :=
  match strIndexOf s pat with
  | none => s
  | some i => String.mk (s.data.take i ++ s.data.drop (i + pat.data.length))

/-- ASCII lower-casing of one character (JS toLowerCase on the ASCII range). -/
def charLower (c : Char) : Char :=
  if 65 ≤ c.toNat ∧ c.toNat ≤ 90 then Char.ofNat (c.toNat + 32) else c

/-- ASCII upper-casing of one character (JS toUpperCase on the ASCII range). -/
def charUpper (c : Char) : Char :=
  if 97 ≤ c.toNat ∧ c.toNat ≤ 122 then Char.ofNat (c.toNat - 32) else c

/-- JS s.toLowerCase() restricted to ASCII. -/
def strLower (s : String) : String :=
  String.mk (s.data.map charLower)

/-- JS s.toUpperCase() restricted to ASCII. -/
def strUpper (s : String) : String :=
  String.mk (s.data.map charUpper)

/-- Split of a character list at every occurrence of the separator
character, as in JS split. -/
def splitCharAux (sep : Char) : List Char → List (List Char)
  | [] => [[]]
  | c :: cs =>
    if c == sep then [] :: splitCharAux sep cs
    else
      match splitCharAux sep cs with
      | [] => [[c]]
      | x :: xs => (c :: x) :: xs

/-- JS s.split(sep) for a one-character separator. -/
def splitChar (sep : Char) (s : String) : List String :=
  (splitCharAux sep s.data).map String.mk

/-- JS array.join(sep). -/
def joinSep (sep : String) : List String → String
  | [] => ""
  | [x] => x
  | x :: y :: xs => x ++ sep ++ joinSep sep (y :: xs)

/-- JS s.replace(/(Success|Error)\ /, ''): removes the leftmost occurrence
of either "Success " or "Error " anywhere in s (no anchor, no global flag);
at a given position the alternation tries "Success " first, but the two
words cannot match at the same index. -/
def stripStatusTag (s : String) : String :=
  match strIndexOf s "Success ", strIndexOf s "Error " with
  | some i, some j => if i ≤ j then removeFirst s "Success " else removeFirst s "Error "
  | some _, none => removeFirst s "Success "
  | none, some _ => removeFirst s "Error "
  | none, none => s

/-! ## JavaScript objects as association lists -/

/-- JS property write obj[k] = v: replaces the value in place when the key
exists (keeping its position), appends the key otherwise. -/
def aset {α : Type} (m : List (String × α)) (k : String) (v : α) :
    List (String × α) :=
  if m.any (fun kv => kv.1 == k) then
    m.map (fun kv => if kv.1 == k then (k, v) else kv)
  else m ++ [(k, v)]

/-- JS property read obj[k], none for undefined. -/
def aget {α : Type} (m : List (String × α)) (k : String) : Option α :=
  (m.find? (fun kv => kv.1 == k)).map (fun kv => kv.2)

/-- In-place mutation of the value stored under an existing key (the JS
pattern of holding a reference to obj[k] and mutating it). -/
def aupdate {α : Type} (m : List (String × α)) (k : String) (f : α → α) :
    List (String × α) :=
  m.map (fun kv => if kv.1 == k then (k, f kv.2) else kv)

/-! ## Data model (section 3 of the spec, mirroring the apidoc records) -/

/-- One apidoc field record, as consumed by getSchema and getPaths.
size models the optional size-constraint string (absent or falsy empty
string behave alike in the JS truthiness test); allowedValues models the
optional enumeration array ("none" = key absent). -/
structure Field where
  field : String
  type : String
  optional : Bool
  description : String
  size : Option String
  allowedValues : Option (List String)
  group : String

/-- OpenAPI Schema Object as produced by getSchema: an object schema
(properties map plus required list), an array schema, or a scalar with
optional maxLength and enum members. -/
inductive Schema where
  | obj (properties : List (String × Schema)) (required : List String)
  | arr (items : Schema)
  | scalar (type : String) (maxLength : Option String) (enumVals : Option (List String))

/-- OpenAPI Parameter Object as built in getPaths and addParam.  location
models the JS key "in"; the constant content[application/json] wrapper
around the schema is elided. -/
structure ParameterObject where
  name : String
  description : String
  location : String
  required : Bool
  schema : Schema

/-- The request-body object: required is the constant true written by the
source; the content[application/json] wrapper around the schema is elided. -/
structure RequestBodyObject where
  required : Bool
  schema : Schema

/-- OpenAPI Operation Object.  requestBody is none when the source deletes
the empty requestBody member; responses maps a status code to the response
schema (the content[application/json] wrapper is elided); deprecated false
models the absent member. -/
structure Operation where
  summary : String
  description : String
  operationId : String
  tags : List String
  parameters : List ParameterObject
  requestBody : Option RequestBodyObject
  responses : List (String × Schema)
  deprecated : Bool

/-- One apidoc endpoint record (the fields of the parsed data that
getPaths reads).  type is the HTTP method; header models
item.header.fields.Header; parameterFields models item.parameter.fields
(a map from group label to field list); success and error model
item.success.fields and item.error.fields as ordered label-keyed maps. -/
structure Endpoint where
  url : String
  type : String
  title : String
  description : String
  group : String
  name : String
  header : Option (List Field)
  parameterFields : Option (List (String × List Field))
  success : Option (List (String × List Field))
  error : Option (List (String × List Field))
  deprecated : Bool

/-! ## getSchema (schema inference) -/

/-- The child filter inside getSchema: sibling fields whose dot path starts
with the parent's path plus a dot and, after removing that first occurrence
of the prefix, contain no further dot (direct children only). -/
def schemaChildren (params : List Field) (param : Field) : List Field :=
  params.filter (fun p =>
    strPrefixOf (param.field ++ ".") p.field &&
    !(strContainsChar (removeFirst p.field (param.field ++ ".")) '.'))

/-- One unfolding of the body of getSchema, parametric in the recursive
call.  Mirrors src/index.js getSchema: the Object branch folds the direct
children into a properties object and pushes each non-optional child's
de-prefixed name onto required; the array branch (type contains "[]")
recurses with the first "[]" removed from the type; the scalar branch
lower-cases the type, sets maxLength to size with its first ".." removed
when the lowered type is "string" and size is truthy, and copies
allowedValues into enum when present. -/
def schemaStep (rec : List Field → Field → Schema) (params : List Field)
    (param : Field) : Schema :=
  if param.type == "Object" then
    Schema.obj
      ((schemaChildren params param).foldl
        (fun acc p =>
          aset acc (removeFirst p.field (param.field ++ ".")) (rec params p)) [])
      (((schemaChildren params param).filter (fun p => !p.optional)).map
        (fun p => removeFirst p.field (param.field ++ ".")))
  else if strContainsSub param.type "[]" then
    Schema.arr (rec params { param with type := removeFirst param.type "[]" })
  else
    Schema.scalar (strLower param.type)
      (match param.size with
       | some s => if strLower param.type == "string" && s != "" then
           some (removeFirst s "..") else none
       | none => none)
      param.allowedValues

/-- Strict upper bound on the field-path length of any member of params. -/
def maxFieldBound (params : List Field) : Nat :=
  params.foldr (fun p a => max (p.field.length + 1) a) 0

/-- Strict upper bound on the type-string length of any member of params. -/
def maxTypeBound (params : List Field) : Nat :=
  params.foldr (fun p a => max (p.type.length + 1) a) 0

/-- Termination measure for the getSchema recursion: an object step moves
to a member of params with a strictly longer field path, an array step
keeps the field and strictly shortens the type string. -/
def schemaPhi (params : List Field) (param : Field) : Nat :=
  (maxFieldBound params - param.field.length) * maxTypeBound params +
    param.type.length

/-- Fuel-indexed schema inference; with fuel above schemaPhi it computes
the source's getSchema (theorem getSchema_eq). -/
def getSchemaF : Nat → List Field → Field → Schema
  | 0, _, _ => Schema.scalar "" none none
  | n + 1, params, param => schemaStep (getSchemaF n) params param

/-- getSchema from src/index.js: schema inference for one field given its
sibling field list. -/
def getSchema (params : List Field) (param : Field) : Schema :=
  getSchemaF (schemaPhi params param + 1) params param

/-! ## Route-template normalization -/

/-- toPatternedFieldname from src/index.js: split the route on "/", rewrite
each segment whose first character is the colon sigil (segment[0] === ':')
to the brace-wrapped remainder (slice(1)), and rejoin with "/". -/
def toPatternedFieldname (url : String) : String :=
  joinSep "/" ((splitChar '/' url).map (fun segment =>
    if segment.data.head? == some ':' then
      "\x7b" ++ String.mk (segment.data.drop 1) ++ "\x7d"
    else segment))

/-! ## Parameter and response classification (getPaths internals) -/

/-- filterParentParams from src/index.js: keep only direct fields, the ones
whose dot path contains no dot. -/
def filterParentParams (params : List Field) : List Field :=
  params.filter (fun param => !(strContainsChar param.field '.'))

/-- The combined header plus generic parameter field list that the
classification loop of getPaths iterates over: item.header.fields.Header
when the header block exists, followed by item.parameter.fields.Parameter
when that chain exists (each defaulting to the empty list). -/
def buildParams (item : Endpoint) : List Field :=
  (item.header.getD []) ++
    (match item.parameterFields with
     | some fs => (aget fs "Parameter").getD []
     | none => [])

/-- The path Parameter Objects pushed first by getPaths via addParam: every
field of the "URI Parameter" sub-group, location "path", required iff not
optional, schema inferred against the sub-group itself. -/
def pathParameterObjects (item : Endpoint) : List ParameterObject :=
  match item.parameterFields with
  | some fs =>
    match aget fs "URI Parameter" with
    | some pathParams =>
      pathParams.map (fun param =>
        { name := param.field, description := param.description,
          location := "path", required := !param.optional,
          schema := getSchema pathParams param })
    | none => []
  | none => []

/-- One iteration of the classification loop of getPaths, acting on the
accumulated (parameters list, optional body-schema state) pair.  The body
state holds the properties map and required list of the lazily created
request-body schema; none models the never-created empty requestBody.
The trailing else arm mirrors the JS else-if chain and is unreachable,
since isBodyParam is the negation of isQueryParam. -/
def classifyStep (httpMethod : String) (params : List Field)
    (acc : List ParameterObject × Option (List (String × Schema) × List String))
    (param : Field) :
    List ParameterObject × Option (List (String × Schema) × List String) :=
  let isHeader := param.group == "Header"
  let isQueryParam := !isHeader && (httpMethod == "get" || httpMethod == "delete")
  let isBodyParam := !isQueryParam
  if isHeader || isQueryParam then
    (acc.1 ++ [{ name := param.field, description := param.description,
                 location := if isHeader then "header" else "query",
                 required := !param.optional,
                 schema := getSchema params param }], acc.2)
  else if isBodyParam then
    (acc.1,
     some (aset (acc.2.getD ([], [])).1 param.field (getSchema params param),
           if !param.optional then (acc.2.getD ([], [])).2 ++ [param.field]
           else (acc.2.getD ([], [])).2))
  else acc

/-- The ordered list of response field groups of an endpoint: the values of
item.success.fields followed by the values of item.error.fields. -/
def responseGroups (item : Endpoint) : List (List Field) :=
  (match item.success with
   | some fs => fs.map (fun kv => kv.2)
   | none => []) ++
  (match item.error with
   | some fs => fs.map (fun kv => kv.2)
   | none => [])

/-- The JS mutation of a response or body schema object: add one property
(inferred against the sibling list) and push the field onto required when
it is not optional.  By construction it is only applied to object schemas. -/
def addSchemaProp (siblings : List Field) (f : Field) : Schema → Schema
  | Schema.obj props req =>
    Schema.obj (aset props f.field (getSchema siblings f))
      (if !f.optional then req ++ [f.field] else req)
  | s => s

/-- One iteration of the per-group response loop of getPaths: when no
response object exists yet, derive the status code from the current field's
group label (strip the first "Success "/"Error " occurrence, upper-case),
insert a fresh empty object schema under that code, and add the field to
it; afterwards, mutate the schema stored under the remembered code. -/
def respStep (responses : List Field)
    (st : List (String × Schema) × Option String) (response : Field) :
    List (String × Schema) × Option String :=
  match st.2 with
  | none =>
    let statusCode := strUpper (stripStatusTag response.group)
    (aupdate (aset st.1 statusCode (Schema.obj [] [])) statusCode
      (addSchemaProp responses response), some statusCode)
  | some statusCode =>
    (aupdate st.1 statusCode (addSchemaProp responses response),
     some statusCode)

/-- The per-group response loop of getPaths: iterate the direct fields of
the group, lazily creating the Response Object on the first one. -/
def addResponseGroup (responsesObject : List (String × Schema))
    (responses : List Field) : List (String × Schema) :=
  ((filterParentParams responses).foldl (respStep responses)
    (responsesObject, none)).1

/-- The Operation Object that getPaths builds for one endpoint record:
summary, description, operationId group.name, tags; parameters start with
the path Parameter Objects and the classification loop appends header and
query Parameter Objects and accumulates body fields; the requestBody member
is dropped when no body field created it; responses are folded over the
success and error groups; deprecated is set only when the record marks it. -/
def buildOperation (item : Endpoint) : Operation :=
  let params := buildParams item
  let classified :=
    params.foldl (classifyStep item.type params) (pathParameterObjects item, none)
  { summary := item.title,
    description := item.description,
    operationId := item.group ++ "." ++ item.name,
    tags := [item.group],
    parameters := classified.1,
    requestBody := classified.2.map (fun st =>
      { required := true, schema := Schema.obj st.1 st.2 }),
    responses := (responseGroups item).foldl addResponseGroup [],
    deprecated := item.deprecated }

/-- getPaths from src/index.js: fold the endpoint records in input order
into the paths object, fetching or creating the Path Item under the
normalized route and storing the endpoint's Operation under its HTTP
method key. -/
def getPaths (data : List Endpoint) :
    List (String × List (String × Operation)) :=
  data.foldl
    (fun pathsObject item =>
      let endpoint := toPatternedFieldname item.url
      aset pathsObject endpoint
        (aset ((aget pathsObject endpoint).getD []) item.type
          (buildOperation item)))
    []

/-! ## Spec-side classification predicates and split characterizations -/

/-- The header test of the classification loop: the field's group label is
"Header". -/
def isHeaderField (param : Field) : Bool :=
  param.group == "Header"

/-- The query test of the classification loop: not a header field and the
HTTP method is get or delete. -/
def isQueryField (httpMethod : String) (param : Field) : Bool :=
  !isHeaderField param && (httpMethod == "get" || httpMethod == "delete")

/-- The condition under which the body branch of the classification loop is
reached: neither the header nor the query branch applies (the JS
isBodyParam flag is then necessarily true). -/
def isBodyField (httpMethod : String) (param : Field) : Bool :=
  !(isHeaderField param || isQueryField httpMethod param)

/-- The header or query Parameter Object built by the classification loop
for one field (the branch is reached only when the field is header- or
query-classified, so the location does not depend on the method). -/
def mkParameterObject (params : List Field) (param : Field) :
    ParameterObject :=
  { name := param.field, description := param.description,
    location := if isHeaderField param then "header" else "query",
    required := !param.optional,
    schema := getSchema params param }

/-- The properties map accumulated by writing each field of l in order into
an object schema, with schemas inferred against the sibling list params. -/
def objSchemaProps (params : List Field) (l : List Field) :
    List (String × Schema) :=
  l.foldl (fun acc p => aset acc p.field (getSchema params p)) []

/-- The required list accumulated by pushing each non-optional field of l
in order. -/
def objSchemaRequired (l : List Field) : List String :=
  (l.filter (fun p => !p.optional)).map (fun p => p.field)

/-- One body-classified step of the classification loop, acting on the
optional body-schema state alone. -/
def bodyStep (params : List Field)
    (b : Option (List (String × Schema) × List String)) (param : Field) :
    Option (List (String × Schema) × List String) :=
  some (aset (b.getD ([], [])).1 param.field (getSchema params param),
        if !param.optional then (b.getD ([], [])).2 ++ [param.field]
        else (b.getD ([], [])).2)

/-- Projection of the properties map of an operation's request-body
schema (empty when the requestBody member is absent). -/
def requestBodyProperties (op : Operation) : List (String × Schema) :=
  match op.requestBody with
  | some rb =>
    match rb.schema with
    | Schema.obj props _ => props
    | _ => []
  | none => []

/-! ## Concrete example records used by witnesses and counterexamples -/

/-- A string field with a size constraint, as in the spec's example. -/
def sizeField : Field :=
  ⟨"nickname", "String", false, "", some "4..20", none, "Parameter"⟩

/-- An object-typed field with one dotted child below. -/
def addressField : Field :=
  ⟨"address", "Object", false, "", none, none, "Parameter"⟩

/-- The dotted direct child of addressField. -/
def addressCityField : Field :=
  ⟨"address.city", "String", false, "", none, none, "Parameter"⟩

/-- A number-array field, as in the spec's example. -/
def numberArrayField : Field :=
  ⟨"sizes", "Number[]", false, "", none, none, "Parameter"⟩

/-- A POST endpoint whose generic parameter group holds an object field and
its dotted child. -/
def nestedBodyEndpoint : Endpoint :=
  { url := "/users", type := "post", title := "create", description := "",
    group := "User", name := "create", header := none,
    parameterFields := some [("Parameter", [addressField, addressCityField])],
    success := none, error := none, deprecated := false }

/-- A direct query-classified field for a GET endpoint. -/
def queryField : Field :=
  ⟨"q", "String", false, "", none, none, "Parameter"⟩

/-- A GET endpoint with one query field and hence no body field. -/
def emptyBodyEndpoint : Endpoint :=
  { url := "/search", type := "get", title := "search", description := "",
    group := "Search", name := "search", header := none,
    parameterFields := some [("Parameter", [queryField])],
    success := none, error := none, deprecated := false }

/-- A response field whose group label carries "Error " in the middle. -/
def oddLabelField : Field :=
  ⟨"msg", "String", false, "", none, none, "A Error 500"⟩

/-- An endpoint with a success group whose label "A Error 500" contains
"Error " in a non-leading position. -/
def oddLabelEndpoint : Endpoint :=
  { url := "/odd", type := "get", title := "", description := "",
    group := "G", name := "odd", header := none, parameterFields := none,
    success := some [("A Error 500", [oddLabelField])],
    error := none, deprecated := false }

/-- A direct response field of the group "Success 200". -/
def respIdField : Field :=
  ⟨"id", "Number", false, "", none, none, "Success 200"⟩

/-- Another direct response field of the group "Success 200". -/
def respTmpField : Field :=
  ⟨"tmp", "String", false, "", none, none, "Success 200"⟩

/-- A GET endpoint on a parameterized route. -/
def epGetUser : Endpoint :=
  { url := "/users/:id", type := "get", title := "get one",
    description := "", group := "User", name := "getUser", header := none,
    parameterFields := none, success := none, error := none,
    deprecated := false }

/-- A POST endpoint on the same route as epGetUser. -/
def epPostUser : Endpoint :=
  { url := "/users/:id", type := "post", title := "update one",
    description := "", group := "User", name := "postUser", header := none,
    parameterFields := none, success := none, error := none,
    deprecated := false }

/-- A second GET endpoint on the same route and method as epGetUser. -/
def epGetUserAgain : Endpoint :=
  { url := "/users/:id", type := "get", title := "get one again",
    description := "", group := "User", name := "getUserAgain",
    header := none, parameterFields := none, success := none, error := none,
    deprecated := false }

/-! ## Basic facts about the string primitives -/

theorem listPrefixOf_length :
    ∀ (p s : List Char), listPrefixOf p s = true → p.length ≤ s.length
  | [], _, _ => Nat.zero_le _
  | a :: as, [], h => by simp [listPrefixOf] at h
  | a :: as, b :: bs, h => by
    simp only [listPrefixOf, Bool.and_eq_true] at h
    exact Nat.succ_le_succ (listPrefixOf_length as bs h.2)

theorem listFindSub_bound (pat : List Char) :
    ∀ (s : List Char) (i : Nat), listFindSub pat s = some i →
      i + pat.length ≤ s.length := by
  intro s
  induction s with
  | nil =>
    intro i h
    by_cases hp : pat.isEmpty
    · simp only [listFindSub, hp, if_true, Option.some.injEq] at h
      have hnil : pat = [] := List.isEmpty_iff.mp hp
      subst hnil
      omega
    · simp [listFindSub, hp] at h
  | cons c cs ih =>
    intro i h
    by_cases hp : listPrefixOf pat (c :: cs) = true
    · simp only [listFindSub, hp, if_true, Option.some.injEq] at h
      have hple := listPrefixOf_length pat (c :: cs) hp
      rw [List.length_cons] at hple ⊢
      omega
    · simp only [listFindSub, hp, if_false, Bool.false_eq_true, Option.map_eq_some'] at h
      obtain ⟨j, hj, rfl⟩ := h
      have hb := ih j hj
      rw [List.length_cons]
      omega

theorem string_length_mk (l : List Char) : (String.mk l).length = l.length := rfl

theorem string_length_data (s : String) : s.length = s.data.length := rfl

theorem removeFirst_length_lt (s pat : String) (hne : pat.data ≠ [])
    (h : strContainsSub s pat = true) :
    (removeFirst s pat).length < s.length := by
  unfold strContainsSub at h
  cases hidx : strIndexOf s pat with
  | none => rw [hidx] at h; simp at h
  | some i =>
    have hb : i + pat.data.length ≤ s.data.length :=
      listFindSub_bound pat.data s.data i hidx
    have hpat : 1 ≤ pat.data.length := by
      cases hd : pat.data with
      | nil => exact absurd hd hne
      | cons a l => simp
    unfold removeFirst
    rw [hidx]
    rw [string_length_mk, List.length_append, List.length_take, List.length_drop,
      string_length_data]
    omega

theorem strPrefixOf_length (p s : String) (h : strPrefixOf p s = true) :
    p.length ≤ s.length :=
  listPrefixOf_length p.data s.data h

/-! ## The getSchema termination measure decreases -/

theorem mem_maxFieldBound (params : List Field) :
    ∀ p ∈ params, p.field.length + 1 ≤ maxFieldBound params := by
  induction params with
  | nil => simp
  | cons q rest ih =>
    intro p hp
    have hunf : maxFieldBound (q :: rest) =
        max (q.field.length + 1) (maxFieldBound rest) := rfl
    rw [hunf]
    rcases List.mem_cons.mp hp with rfl | hp
    · exact le_max_left _ _
    · exact le_trans (ih p hp) (le_max_right _ _)

theorem mem_maxTypeBound (params : List Field) :
    ∀ p ∈ params, p.type.length + 1 ≤ maxTypeBound params := by
  induction params with
  | nil => simp
  | cons q rest ih =>
    intro p hp
    have hunf : maxTypeBound (q :: rest) =
        max (q.type.length + 1) (maxTypeBound rest) := rfl
    rw [hunf]
    rcases List.mem_cons.mp hp with rfl | hp
    · exact le_max_left _ _
    · exact le_trans (ih p hp) (le_max_right _ _)

theorem phi_child_lt (params : List Field) (param p : Field)
    (hp : p ∈ schemaChildren params param) :
    schemaPhi params p < schemaPhi params param := by
  have hmem := List.mem_filter.mp hp
  have hpre : strPrefixOf (param.field ++ ".") p.field = true := by
    have h2 := hmem.2
    simp only [Bool.and_eq_true] at h2
    exact h2.1
  have hlen : param.field.length + 1 ≤ p.field.length := by
    have := strPrefixOf_length (param.field ++ ".") p.field hpre
    rwa [String.length_append] at this
  have hB : p.field.length + 1 ≤ maxFieldBound params :=
    mem_maxFieldBound params p hmem.1
  have hK : p.type.length + 1 ≤ maxTypeBound params :=
    mem_maxTypeBound params p hmem.1
  unfold schemaPhi
  calc (maxFieldBound params - p.field.length) * maxTypeBound params + p.type.length
      < (maxFieldBound params - p.field.length) * maxTypeBound params +
          maxTypeBound params := Nat.add_lt_add_left (by omega) _
    _ = ((maxFieldBound params - p.field.length) + 1) * maxTypeBound params := by ring
    _ ≤ (maxFieldBound params - param.field.length) * maxTypeBound params :=
        Nat.mul_le_mul_right _ (by omega)
    _ ≤ (maxFieldBound params - param.field.length) * maxTypeBound params +
          param.type.length := Nat.le_add_right _ _

theorem phi_array_lt (params : List Field) (param : Field)
    (h : strContainsSub param.type "[]" = true) :
    schemaPhi params { param with type := removeFirst param.type "[]" } <
      schemaPhi params param := by
  have hlt : (removeFirst param.type "[]").length < param.type.length :=
    removeFirst_length_lt param.type "[]" (by decide) h
  unfold schemaPhi
  exact Nat.add_lt_add_left hlt _

/-! ## The fuel-indexed getSchema stabilizes: the one-step unfolding -/

theorem schemaStep_congr (r1 r2 : List Field → Field → Schema)
    (params : List Field) (param : Field)
    (hchild : ∀ p ∈ schemaChildren params param, r1 params p = r2 params p)
    (harr : strContainsSub param.type "[]" = true →
      r1 params { param with type := removeFirst param.type "[]" } =
        r2 params { param with type := removeFirst param.type "[]" }) :
    schemaStep r1 params param = schemaStep r2 params param := by
  unfold schemaStep
  split
  · congr 1
    apply List.foldl_ext
    intro acc p hp
    rw [hchild p hp]
  · split
    · next hc => rw [harr hc]
    · rfl

theorem getSchemaF_stable :
    ∀ (n : Nat) (params : List Field) (param : Field),
      schemaPhi params param < n →
      getSchemaF n params param = schemaStep getSchema params param := by
  intro n
  induction n using Nat.strong_induction_on with
  | _ n ih =>
    intro params param h
    cases n with
    | zero => omega
    | succ m =>
      show schemaStep (getSchemaF m) params param = schemaStep getSchema params param
      have hrec : ∀ q : Field, schemaPhi params q < schemaPhi params param →
          getSchemaF m params q = getSchema params q := by
        intro q hq
        have h1 : getSchemaF m params q = schemaStep getSchema params q :=
          ih m (by omega) params q (by omega)
        have h2 : getSchemaF (schemaPhi params q + 1) params q =
            schemaStep getSchema params q :=
          ih (schemaPhi params q + 1) (by omega) params q (by omega)
        rw [h1]
        exact h2.symm
      apply schemaStep_congr
      · intro p hp
        exact hrec p (phi_child_lt params param p hp)
      · intro hc
        exact hrec _ (phi_array_lt params param hc)

theorem getSchema_eq (params : List Field) (param : Field) :
    getSchema params param = schemaStep getSchema params param :=
  getSchemaF_stable (schemaPhi params param + 1) params param (Nat.lt_succ_self _)

/-! ## Association-list lemmas -/

theorem aset_nil {α : Type} (k : String) (v : α) :
    aset ([] : List (String × α)) k v = [(k, v)] := rfl

theorem aset_pos {α : Type} {m : List (String × α)} {k : String} (v : α)
    (h : m.any (fun x => x.1 == k) = true) :
    aset m k v = m.map (fun x => if x.1 == k then (k, v) else x) := by
  unfold aset
  exact if_pos h

theorem aset_neg {α : Type} {m : List (String × α)} {k : String} (v : α)
    (h : m.any (fun x => x.1 == k) = false) :
    aset m k v = m ++ [(k, v)] := by
  unfold aset
  exact if_neg (by simp [h])

theorem aget_cons_self {α : Type} (k : String) (v : α) (m : List (String × α)) :
    aget ((k, v) :: m) k = some v := by
  unfold aget
  rw [List.find?_cons_of_pos _ (by simp)]
  rfl

theorem aget_cons_ne {α : Type} (k' k : String) (v : α) (m : List (String × α))
    (h : (k' == k) = false) : aget ((k', v) :: m) k = aget m k := by
  unfold aget
  rw [List.find?_cons_of_neg _ (by simp [h])]

theorem aget_aset_self {α : Type} (m : List (String × α)) (k : String) (v : α) :
    aget (aset m k v) k = some v := by
  induction m with
  | nil =>
    rw [aset_nil]
    exact aget_cons_self k v []
  | cons kv m ih =>
    obtain ⟨k0, v0⟩ := kv
    cases h1 : (k0 == k) with
    | true =>
      have hany : (((k0, v0) :: m).any (fun x => x.1 == k)) = true := by
        simp [h1]
      rw [aset_pos v hany, List.map_cons]
      simp only [h1, if_true]
      exact aget_cons_self k v _
    | false =>
      cases h2 : (m.any (fun x => x.1 == k)) with
      | true =>
        have hany : (((k0, v0) :: m).any (fun x => x.1 == k)) = true := by
          simp [h2]
        rw [aset_pos v hany, List.map_cons]
        simp only [h1, Bool.false_eq_true, if_false]
        rw [aget_cons_ne k0 k v0 _ h1, ← aset_pos v h2]
        exact ih
      | false =>
        have hany : (((k0, v0) :: m).any (fun x => x.1 == k)) = false := by
          simp [h1, h2]
        rw [aset_neg v hany, List.cons_append, aget_cons_ne k0 k v0 _ h1,
          ← aset_neg v h2]
        exact ih

theorem aupdate_aset {α : Type} (m : List (String × α)) (k : String) (v : α)
    (f : α → α) : aupdate (aset m k v) k f = aset m k (f v) := by
  cases hany : (m.any (fun x => x.1 == k)) with
  | true =>
    rw [aset_pos v hany, aset_pos (f v) hany]
    unfold aupdate
    rw [List.map_map]
    apply List.map_congr_left
    intro x _
    by_cases hk : (x.1 == k) = true <;> simp [Function.comp, hk]
  | false =>
    rw [aset_neg v hany, aset_neg (f v) hany]
    unfold aupdate
    rw [List.map_append]
    have hid : m.map (fun x => if x.1 == k then (k, f x.2) else x) = m := by
      have hall := List.any_eq_false.mp hany
      rw [show m.map (fun x => if x.1 == k then (k, f x.2) else x) = m.map id from
        List.map_congr_left (fun x hx => by simp [hall x hx]), List.map_id]
    rw [hid]
    congr 1
    simp

theorem aset_aset_self {α : Type} (m : List (String × α)) (k : String)
    (v w : α) : aset (aset m k v) k w = aset m k w := by
  cases hany : (m.any (fun x => x.1 == k)) with
  | true =>
    rw [aset_pos v hany]
    have hany2 : ((m.map (fun x => if x.1 == k then (k, v) else x)).any
        (fun x => x.1 == k)) = true := by
      obtain ⟨x, hx, hxk⟩ := List.any_eq_true.mp hany
      apply List.any_eq_true.mpr
      exact ⟨if x.1 == k then (k, v) else x, List.mem_map_of_mem _ hx,
        by simp [hxk]⟩
    rw [aset_pos w hany2, aset_pos w hany, List.map_map]
    apply List.map_congr_left
    intro x _
    by_cases hk : (x.1 == k) = true <;> simp [Function.comp, hk]
  | false =>
    rw [aset_neg v hany]
    have hany2 : ((m ++ [(k, v)]).any (fun x => x.1 == k)) = true := by
      simp
    rw [aset_pos w hany2, List.map_append]
    have hid : m.map (fun x => if x.1 == k then (k, w) else x) = m := by
      have hall := List.any_eq_false.mp hany
      rw [show m.map (fun x => if x.1 == k then (k, w) else x) = m.map id from
        List.map_congr_left (fun x hx => by simp [hall x hx]), List.map_id]
    rw [hid, aset_neg w hany]
    simp

theorem foldl_aupdate_aset {α : Type} (k : String) (g : Field → α → α) :
    ∀ (l : List Field) (m : List (String × α)) (v : α),
      l.foldl (fun acc r => aupdate acc k (g r)) (aset m k v) =
        aset m k (l.foldl (fun v r => g r v) v) := by
  intro l
  induction l with
  | nil => intro m v; rfl
  | cons r l ih =>
    intro m v
    rw [List.foldl_cons, List.foldl_cons, aupdate_aset]
    exact ih m (g r v)

/-! ## The classification loop splits into a parameter part and a body part -/

theorem classifyStep_param (httpMethod : String) (params : List Field)
    (acc : List ParameterObject × Option (List (String × Schema) × List String))
    (param : Field)
    (hq : (isHeaderField param || isQueryField httpMethod param) = true) :
    classifyStep httpMethod params acc param =
      (acc.1 ++ [mkParameterObject params param], acc.2) := by
  simp only [isHeaderField, isQueryField] at hq
  unfold classifyStep mkParameterObject isHeaderField
  rw [if_pos hq]

theorem classifyStep_body (httpMethod : String) (params : List Field)
    (acc : List ParameterObject × Option (List (String × Schema) × List String))
    (param : Field)
    (hq : (isHeaderField param || isQueryField httpMethod param) = false) :
    classifyStep httpMethod params acc param =
      (acc.1, bodyStep params acc.2 param) := by
  have hsplit := Bool.or_eq_false_iff.mp hq
  have hh : (param.group == "Header") = false := hsplit.1
  have hD : (httpMethod == "get" || httpMethod == "delete") = false := by
    have h2 := hsplit.2
    unfold isQueryField isHeaderField at h2
    rw [hh] at h2
    simpa using h2
  unfold classifyStep bodyStep
  rw [hh, hD]
  simp

theorem isBodyField_eq_false_iff (httpMethod : String) (param : Field) :
    isBodyField httpMethod param = false ↔
      (isHeaderField param || isQueryField httpMethod param) = true := by
  unfold isBodyField
  cases (isHeaderField param || isQueryField httpMethod param) <;> simp

theorem classify_fold_split (httpMethod : String) (params : List Field) :
    ∀ (l : List Field) (ps : List ParameterObject)
      (b : Option (List (String × Schema) × List String)),
      l.foldl (classifyStep httpMethod params) (ps, b) =
        (ps ++ (l.filter
            (fun p => isHeaderField p || isQueryField httpMethod p)).map
            (mkParameterObject params),
         (l.filter (isBodyField httpMethod)).foldl (bodyStep params) b) := by
  intro l
  induction l with
  | nil => intro ps b; simp
  | cons p l ih =>
    intro ps b
    rw [List.foldl_cons]
    cases hq : (isHeaderField p || isQueryField httpMethod p) with
    | true =>
      have hbody : isBodyField httpMethod p = false :=
        (isBodyField_eq_false_iff httpMethod p).mpr hq
      rw [classifyStep_param httpMethod params (ps, b) p hq, ih]
      simp [List.filter_cons, hq, hbody]
    | false =>
      have hbody : isBodyField httpMethod p = true := by
        unfold isBodyField
        rw [hq]
        rfl
      rw [classifyStep_body httpMethod params (ps, b) p hq, ih]
      simp [List.filter_cons, hq, hbody, List.foldl_cons]

/-! ## The body accumulator characterized -/

theorem bodyFold_some (params : List Field) :
    ∀ (l : List Field) (props : List (String × Schema)) (req : List String),
      l.foldl (bodyStep params) (some (props, req)) =
        some (l.foldl (fun acc q => aset acc q.field (getSchema params q)) props,
              req ++ (l.filter (fun q => !q.optional)).map (fun q => q.field)) := by
  intro l
  induction l with
  | nil => intro props req; simp
  | cons q l ih =>
    intro props req
    rw [List.foldl_cons]
    have hstep : bodyStep params (some (props, req)) q =
        some (aset props q.field (getSchema params q),
              if !q.optional then req ++ [q.field] else req) := rfl
    rw [hstep, ih, List.foldl_cons]
    cases hopt : q.optional with
    | true =>
      rw [List.filter_cons_of_neg (by simp [hopt])]
      simp [hopt]
    | false =>
      rw [List.filter_cons_of_pos (by simp [hopt])]
      simp [hopt]

theorem bodyFold_none (params : List Field) (l : List Field) :
    l.foldl (bodyStep params) none =
      match l with
      | [] => none
      | _ => some (objSchemaProps params l, objSchemaRequired l) := by
  cases l with
  | nil => rfl
  | cons q l =>
    rw [List.foldl_cons]
    have h0 : bodyStep params none q =
        some (aset [] q.field (getSchema params q),
              if !q.optional then [q.field] else []) := rfl
    rw [h0, bodyFold_some]
    unfold objSchemaProps objSchemaRequired
    rw [List.foldl_cons]
    cases hopt : q.optional with
    | true =>
      rw [List.filter_cons_of_neg (by simp [hopt])]
      simp [hopt]
    | false =>
      rw [List.filter_cons_of_pos (by simp [hopt])]
      simp [hopt]

/-! ## The response-group loop characterized -/

theorem respFold_some (responses : List Field) :
    ∀ (l : List Field) (mm : List (String × Schema)) (code : String),
      l.foldl (respStep responses) (mm, some code) =
        (l.foldl (fun acc r => aupdate acc code (addSchemaProp responses r)) mm,
         some code) := by
  intro l
  induction l with
  | nil => intro mm code; rfl
  | cons r l ih =>
    intro mm code
    rw [List.foldl_cons, List.foldl_cons]
    exact ih _ code

theorem addSchemaProp_fold (siblings : List Field) :
    ∀ (l : List Field) (props : List (String × Schema)) (req : List String),
      l.foldl (fun s r => addSchemaProp siblings r s) (Schema.obj props req) =
        Schema.obj
          (l.foldl (fun acc r => aset acc r.field (getSchema siblings r)) props)
          (req ++ (l.filter (fun r => !r.optional)).map (fun r => r.field)) := by
  intro l
  induction l with
  | nil => intro props req; simp
  | cons r l ih =>
    intro props req
    rw [List.foldl_cons]
    have hstep : addSchemaProp siblings r (Schema.obj props req) =
        Schema.obj (aset props r.field (getSchema siblings r))
          (if !r.optional then req ++ [r.field] else req) := rfl
    rw [hstep, ih, List.foldl_cons]
    cases hopt : r.optional with
    | true =>
      rw [List.filter_cons_of_neg (by simp [hopt])]
      simp [hopt]
    | false =>
      rw [List.filter_cons_of_pos (by simp [hopt])]
      simp [hopt]

theorem addResponseGroup_eq (m : List (String × Schema)) (responses : List Field) :
    addResponseGroup m responses =
      match filterParentParams responses with
      | [] => m
      | f :: _ =>
        aset m (strUpper (stripStatusTag f.group))
          (Schema.obj (objSchemaProps responses (filterParentParams responses))
            (objSchemaRequired (filterParentParams responses))) := by
  unfold addResponseGroup
  cases hd : filterParentParams responses with
  | nil => rfl
  | cons f rest =>
    rw [List.foldl_cons]
    have h0 : respStep responses (m, none) f =
        (aupdate (aset m (strUpper (stripStatusTag f.group)) (Schema.obj [] []))
          (strUpper (stripStatusTag f.group)) (addSchemaProp responses f),
         some (strUpper (stripStatusTag f.group))) := rfl
    rw [h0, aupdate_aset, respFold_some]
    show rest.foldl
        (fun acc r =>
          aupdate acc (strUpper (stripStatusTag f.group)) (addSchemaProp responses r))
        (aset m (strUpper (stripStatusTag f.group))
          (addSchemaProp responses f (Schema.obj [] []))) = _
    rw [foldl_aupdate_aset]
    congr 1
    have hv : addSchemaProp responses f (Schema.obj [] []) =
        Schema.obj (aset [] f.field (getSchema responses f))
          (if !f.optional then [f.field] else []) := rfl
    rw [hv, addSchemaProp_fold]
    unfold objSchemaProps objSchemaRequired
    rw [List.foldl_cons]
    cases hopt : f.optional with
    | true =>
      rw [List.filter_cons_of_neg (by simp [hopt])]
      simp [hopt]
    | false =>
      rw [List.filter_cons_of_pos (by simp [hopt])]
      simp [hopt]

/-! ## Claim theorems -/

/-- Claim C1 (code bug): the claim and the spec say that for a string-typed
field with size constraint "min..max" the inferred maxLength is the literal
text after the ".." separator ("4..20" would yield "20").  The source
instead computes size.replace('..',''), which removes the separator and
concatenates the bounds: a field of type "String" with size "4..20" gets
maxLength "420", not "20". -/
theorem getSchema_size_separator_removed :
    getSchema [] sizeField = Schema.scalar "string" (some "420") none ∧
      ("420" : String) ≠ "20" :=
  ⟨rfl, by decide⟩

/-- Claim C2 counterexample: in nestedBodyEndpoint the generic parameter
group holds the object field "address" and its dotted child "address.city";
the classification loop of getPaths does not filter dotted fields, so
"address.city" is classified on its own as a body property of the
requestBody schema, contradicting the claim that a dotted child is never
independently classified. -/
theorem dotted_child_independently_classified :
    aget (requestBodyProperties (buildOperation nestedBodyEndpoint))
      "address.city" = some (Schema.scalar "string" none none) := rfl

/-- Claim C2 (amended): every record of the header and generic parameter
groups, dotted or not, is classified into exactly one of the parameters
list (when header- or query-classified) or the requestBody properties
(when body-classified); the parameters list is the path Parameter Objects
followed by one Parameter Object per header/query field in input order,
and the requestBody is present precisely when some field is
body-classified.  Dotted child fields are classified like any other field
(and additionally appear inside their object-typed ancestor's recursive
schema). -/
theorem classification_partition (item : Endpoint) :
    (buildOperation item).parameters =
      pathParameterObjects item ++
        ((buildParams item).filter
          (fun p => isHeaderField p || isQueryField item.type p)).map
          (mkParameterObject (buildParams item)) ∧
    (buildOperation item).requestBody =
      (match (buildParams item).filter (isBodyField item.type) with
       | [] => none
       | l => some { required := true,
                     schema := Schema.obj (objSchemaProps (buildParams item) l)
                       (objSchemaRequired l) }) := by
  constructor
  · show ((buildParams item).foldl (classifyStep item.type (buildParams item))
      (pathParameterObjects item, none)).1 = _
    rw [classify_fold_split]
  · show (((buildParams item).foldl (classifyStep item.type (buildParams item))
      (pathParameterObjects item, none)).2).map _ = _
    rw [classify_fold_split]
    show ((((buildParams item).filter (isBodyField item.type)).foldl
      (bodyStep (buildParams item)) none)).map _ = _
    rw [bodyFold_none]
    cases hfb : (buildParams item).filter (isBodyField item.type) with
    | nil => rfl
    | cons q l => rfl

/-- Claim C3: for a field whose declared type is exactly "Object", schema
inference yields an object schema whose properties are exactly the direct
children (siblings whose path starts with the field's path plus a dot and
has no further dot after stripping that prefix), each stored under its
de-prefixed name with its recursively inferred schema, and each listed in
required iff it is not optional; grandchildren are excluded by the
no-further-dot condition of schemaChildren. -/
theorem getSchema_object_children (params : List Field) (param : Field)
    (h : param.type = "Object") :
    getSchema params param =
      Schema.obj
        ((schemaChildren params param).foldl
          (fun acc p =>
            aset acc (removeFirst p.field (param.field ++ "."))
              (getSchema params p)) [])
        (((schemaChildren params param).filter (fun p => !p.optional)).map
          (fun p => removeFirst p.field (param.field ++ "."))) := by
  rw [getSchema_eq]
  unfold schemaStep
  rw [if_pos (by simp [h])]

/-- Witness for C3 at the spec's example: fields address (Object) and
address.city (String) give address the object schema with property city
and required ["city"]. -/
theorem getSchema_object_children_witness :
    addressField.type = "Object" ∧
    getSchema [addressField, addressCityField] addressField =
      Schema.obj [("city", Schema.scalar "string" none none)] ["city"] := by
  refine ⟨rfl, ?_⟩
  rw [getSchema_object_children [addressField, addressCityField] addressField rfl]
  rfl

/-- Claim C4: for a field whose declared type contains the array marker
"[]" and is not exactly "Object", schema inference yields an array schema
whose items is the result of recursively inferring the same field with the
first occurrence of the marker removed from its type string. -/
theorem getSchema_array_items (params : List Field) (param : Field)
    (h1 : strContainsSub param.type "[]" = true) (h2 : param.type ≠ "Object") :
    getSchema params param =
      Schema.arr
        (getSchema params { param with type := removeFirst param.type "[]" }) := by
  rw [getSchema_eq]
  unfold schemaStep
  rw [if_neg (by simp [h2]), if_pos h1]

/-- Witness for C4 at the spec's example: a field of type "Number[]"
infers to the array schema with number items. -/
theorem getSchema_array_items_witness :
    strContainsSub numberArrayField.type "[]" = true ∧
    numberArrayField.type ≠ "Object" ∧
    getSchema [] numberArrayField =
      Schema.arr (Schema.scalar "number" none none) := by
  refine ⟨rfl, by decide, ?_⟩
  rw [getSchema_array_items [] numberArrayField rfl (by decide)]
  rfl

/-- Claim C5: the emitted Operation carries a requestBody member iff the
classification found at least one body field (the empty requestBody object
is deleted, modelled by none); the parameters member is kept structurally
even when the list is empty (the deletion of an empty parameters list is
commented out in the source, so the model's Operation always carries the
list). -/
theorem requestBody_omitted_iff (item : Endpoint) :
    (buildOperation item).requestBody = none ↔
      (buildParams item).filter (isBodyField item.type) = [] := by
  show (((buildParams item).foldl (classifyStep item.type (buildParams item))
      (pathParameterObjects item, none)).2).map _ = none ↔ _
  rw [classify_fold_split]
  show ((((buildParams item).filter (isBodyField item.type)).foldl
    (bodyStep (buildParams item)) none)).map _ = none ↔ _
  rw [bodyFold_none]
  cases hfb : (buildParams item).filter (isBodyField item.type) with
  | nil => simp
  | cons q l => simp

/-- Witness for C5: the GET endpoint emptyBodyEndpoint has no
body-classified field, so its Operation has no requestBody member, while
its parameters list is present (holding the query Parameter Object). -/
theorem requestBody_omitted_iff_witness :
    (buildOperation emptyBodyEndpoint).requestBody = none ∧
    (buildOperation emptyBodyEndpoint).parameters =
      [{ name := "q", description := "", location := "query",
         required := true, schema := Schema.scalar "string" none none }] :=
  ⟨(requestBody_omitted_iff emptyBodyEndpoint).mpr rfl, rfl⟩

/-- Claim C6: a response field group with at least one direct field writes
under its status code an object schema with one property per direct field
(inferred against the group's full field list) and the field in required
iff it is not optional; a group whose fields are all dotted leaves the
responses map unchanged — no entry at all. -/
theorem responseGroup_direct_fields (m : List (String × Schema))
    (responses : List Field) :
    addResponseGroup m responses =
      match filterParentParams responses with
      | [] => m
      | f :: _ =>
        aset m (strUpper (stripStatusTag f.group))
          (Schema.obj (objSchemaProps responses (filterParentParams responses))
            (objSchemaRequired (filterParentParams responses))) :=
  addResponseGroup_eq m responses

/-- Claim C7 counterexample: the status code is not obtained by stripping a
literal leading "Success "/"Error " prefix: in oddLabelEndpoint the group
label is "A Error 500" and the source's unanchored regex removes the first
"Error " occurrence anywhere, keying the response at "A 500" instead of
the leading-strip result "A ERROR 500". -/
theorem statusCode_not_leading_strip :
    aget (buildOperation oddLabelEndpoint).responses "A 500" =
      some (Schema.obj [("msg", Schema.scalar "string" none none)] ["msg"]) ∧
    aget (buildOperation oddLabelEndpoint).responses "A ERROR 500" = none :=
  ⟨rfl, rfl⟩

/-- Claim C7 (amended): a response group's status-code key is obtained by
removing the first occurrence of "Success " or "Error " anywhere in the
first direct field's group label (leftmost occurrence of either word) and
upper-casing the result; when two groups of one endpoint yield the same
code, the later group's Response Object overwrites the earlier one in
place. -/
theorem responses_statusCode_lastWins (m : List (String × Schema))
    (g1 g2 : List Field) (f1 f2 : Field) (t1 t2 : List Field)
    (h1 : filterParentParams g1 = f1 :: t1)
    (h2 : filterParentParams g2 = f2 :: t2)
    (hc : strUpper (stripStatusTag f1.group) =
      strUpper (stripStatusTag f2.group)) :
    addResponseGroup (addResponseGroup m g1) g2 =
      aset m (strUpper (stripStatusTag f2.group))
        (Schema.obj (objSchemaProps g2 (filterParentParams g2))
          (objSchemaRequired (filterParentParams g2))) := by
  rw [addResponseGroup_eq m g1, h1, addResponseGroup_eq _ g2, h2]
  dsimp only
  rw [hc]
  exact aset_aset_self m _ _ _

/-- Witness for C7: two groups labeled "Success 200" (fields tmp then id);
the later group overwrites the earlier entry, leaving responses["200"]
with the spec's example schema: property id of type number, id required. -/
theorem responses_statusCode_lastWins_witness :
    filterParentParams [respTmpField] = [respTmpField] ∧
    filterParentParams [respIdField] = [respIdField] ∧
    strUpper (stripStatusTag respTmpField.group) =
      strUpper (stripStatusTag respIdField.group) ∧
    addResponseGroup (addResponseGroup [] [respTmpField]) [respIdField] =
      [("200", Schema.obj [("id", Schema.scalar "number" none none)] ["id"])] := by
  refine ⟨rfl, rfl, rfl, ?_⟩
  rw [responses_statusCode_lastWins [] [respTmpField] [respIdField]
    respTmpField respIdField [] [] rfl rfl rfl]
  rfl

/-- Claim C8: the route normalizer splits the template on "/", rewrites
each segment that starts with the colon sigil to the brace-wrapped
remainder, leaves every other segment unchanged, and rejoins with "/"; in
particular "/users/:id/:postId" normalizes to the braced form. -/
theorem toPatternedFieldname_spec :
    (∀ url : String, toPatternedFieldname url =
      joinSep "/" ((splitChar '/' url).map (fun seg =>
        if strPrefixOf ":" seg then
          "\x7b" ++ String.mk (seg.data.drop 1) ++ "\x7d"
        else seg))) ∧
    toPatternedFieldname "/users/:id/:postId" =
      "/users/\x7bid\x7d/\x7bpostId\x7d" := by
  constructor
  · intro url
    unfold toPatternedFieldname
    congr 1
    apply List.map_congr_left
    intro seg _
    have hpat : (":" : String).data = [':'] := rfl
    cases hd : seg.data with
    | nil => simp [strPrefixOf, listPrefixOf, hpat, hd]
    | cons c rest =>
      by_cases hc : c = ':'
      · subst hc
        simp [strPrefixOf, listPrefixOf, hpat, hd]
      · simp [strPrefixOf, listPrefixOf, hpat, hd, hc, Ne.symm hc]
  · rfl

/-- Claim C9: two endpoint records whose routes normalize to the same path
and whose HTTP methods differ merge into a single Path Item under that
path carrying both method keys, each holding the Operation built from its
own endpoint. -/
theorem getPaths_merges_methods (e1 e2 : Endpoint)
    (h1 : toPatternedFieldname e1.url = toPatternedFieldname e2.url)
    (h2 : e1.type ≠ e2.type) :
    getPaths [e1, e2] =
      [(toPatternedFieldname e1.url,
        [(e1.type, buildOperation e1), (e2.type, buildOperation e2)])] := by
  have hb : (e1.type == e2.type) = false := beq_eq_false_iff_ne.mpr h2
  show aset [(toPatternedFieldname e1.url, [(e1.type, buildOperation e1)])]
      (toPatternedFieldname e2.url)
      (aset ((aget [(toPatternedFieldname e1.url,
          [(e1.type, buildOperation e1)])]
        (toPatternedFieldname e2.url)).getD []) e2.type (buildOperation e2)) = _
  rw [← h1, aget_cons_self, Option.getD_some]
  rw [aset_neg (buildOperation e2) (by simp [hb])]
  rw [aset_pos _ (by simp)]
  simp

/-- Witness for C9: the GET and POST endpoints on "/users/:id" merge into
one Path Item with both methods. -/
theorem getPaths_merges_methods_witness :
    getPaths [epGetUser, epPostUser] =
      [("/users/\x7bid\x7d",
        [("get", buildOperation epGetUser),
         ("post", buildOperation epPostUser)])] := by
  have h := getPaths_merges_methods epGetUser epPostUser rfl (by decide)
  exact h

/-- Claim C10: of two endpoint records with the same normalized route and
the same HTTP method, the later one's Operation silently replaces the
earlier one's in the Path Item; processing both endpoints yields exactly
the paths object of the later endpoint alone, so the earlier record
contributes nothing to the output. -/
theorem getPaths_method_overwrite (e1 e2 : Endpoint)
    (h1 : toPatternedFieldname e1.url = toPatternedFieldname e2.url)
    (h2 : e1.type = e2.type) :
    getPaths [e1, e2] = getPaths [e2] := by
  show aset [(toPatternedFieldname e1.url, [(e1.type, buildOperation e1)])]
      (toPatternedFieldname e2.url)
      (aset ((aget [(toPatternedFieldname e1.url,
          [(e1.type, buildOperation e1)])]
        (toPatternedFieldname e2.url)).getD []) e2.type (buildOperation e2)) =
      [(toPatternedFieldname e2.url, [(e2.type, buildOperation e2)])]
  rw [← h1, aget_cons_self, Option.getD_some]
  rw [aset_pos (buildOperation e2) (by simp [h2])]
  rw [aset_pos _ (by simp)]
  simp [h2]

/-- Witness for C10: two GET endpoints on "/users/:id"; the combined paths
object equals the one built from the later endpoint alone. -/
theorem getPaths_method_overwrite_witness :
    getPaths [epGetUser, epGetUserAgain] = getPaths [epGetUserAgain] :=
  getPaths_method_overwrite epGetUser epGetUserAgain rfl rfl

end ApidocOpenapi
